import Mathlib

/-!
# Verification of the ddupe duplicate-file cleaner

Shallow embedding of the core of `Morrolan/ddupe` (files `src/lib.rs` and
`src/main.rs`) together with theorems settling the specification claims.

Modelling conventions:
* A path is a sequence of characters (`List Char`), ordered lexicographically;
  this models the total order used by `Vec::<PathBuf>::sort()`.
* The filesystem is an association list from paths to sizes (`FS`); a path is
  "existing" iff it occurs in the list.  `fs::metadata` is a lookup;
  `fs::remove_file` removes the entry.  Whether a removal succeeds (versus a
  permission failure) is an environment parameter `removeOk`.
* Standard input is a list of `ReadResult`s.  In Rust, `read_line` at end of
  input returns `Ok(0)` with an empty buffer, so an exhausted input list is
  modelled as an endless supply of empty lines; `ReadResult.err` models a
  genuine I/O error from `read_line`.
* The `HashMap<String, Vec<PathBuf>>` consumed by `analyse_duplicates` is
  modelled as an association list in iteration order
  (`List (Digest × List Path)`); Rust's bucket iteration order is arbitrary,
  which is exactly what several claims are about.
-/

namespace Ddupe

/-- A file path, modelled as its character sequence.  The linear order on
`List Char` models the total order on `PathBuf` used by `files.sort()`. -/
abbrev Path := List Char

/-- A content digest (in the program: a 64-character hex SHA-256 string).
`analyse_duplicates` never inspects the digest value. -/
abbrev Digest := List Char

/-- A line of text (models Rust `String` input lines). -/
abbrev Str := List Char

/-- `src/lib.rs` lines 72-78: one "keep" file and the duplicates of it. -/
structure DuplicateGroup where
  keep : Path
  dupes : List Path
deriving DecidableEq, Repr

/-- `src/lib.rs` lines 81-89: full analysis result of a scan. -/
structure DuplicateAnalysis where
  groups : List DuplicateGroup
  removable_files : List Path
  total_saving_bytes : Nat
deriving DecidableEq, Repr

/-- Models `files.sort()` (`src/lib.rs` line 112): stable sort of the bucket by
the total order on paths.  Any correct sort of a linearly ordered list produces
the unique sorted permutation, so insertion sort is used as the model. -/
def sortPaths (files : List Path) : List Path :=
  List.insertionSort (· ≤ ·) files

/-- The body of the bucket loop of `analyse_duplicates` (`src/lib.rs` lines
106-126): skip buckets with at most one member; otherwise sort the bucket,
`files[0]` becomes `keep` (`headI`: the bucket is non-empty here), the rest
become `dupes`; accumulate the group, the removable files and the byte saving
of the dupes whose metadata lookup succeeds. -/
def analyseStep (sizeOf : Path → Option Nat) (acc : DuplicateAnalysis)
    (bucket : Digest × List Path) : DuplicateAnalysis :=
  let files := bucket.2
  if files.length ≤ 1 then acc
  else
    let sorted := sortPaths files
    let keep := sorted.headI
    let dupes := sorted.tail
    { groups := acc.groups ++ [{ keep := keep, dupes := dupes }]
      removable_files := acc.removable_files ++ dupes
      total_saving_bytes :=
        acc.total_saving_bytes + (dupes.filterMap sizeOf).sum }

/-- `src/lib.rs` lines 101-133, `analyse_duplicates`.  The parameter `sizeOf`
models `fs::metadata(dupe).map(|m| m.len())` at analysis time: `none` when the
metadata lookup fails.  Buckets are processed in iteration order. -/
def analyse_duplicates (sizeOf : Path → Option Nat)
    (hash_map : List (Digest × List Path)) : DuplicateAnalysis :=
  hash_map.foldl (analyseStep sizeOf)
    { groups := [], removable_files := [], total_saving_bytes := 0 }

/-- The group contributed by one bucket (`none` for buckets with fewer than two
members).  Characterises the body of the loop in `analyse_duplicates`. -/
def bucketGroup (bucket : Digest × List Path) : Option DuplicateGroup :=
  if bucket.2.length ≤ 1 then none
  else some { keep := (sortPaths bucket.2).headI, dupes := (sortPaths bucket.2).tail }

/-- The removable files contributed by one bucket. -/
def bucketDupes (bucket : Digest × List Path) : List Path :=
  if bucket.2.length ≤ 1 then [] else (sortPaths bucket.2).tail

/-- The byte saving contributed by one bucket: sizes of the dupes whose
metadata lookup succeeded. -/
def bucketSaving (sizeOf : Path → Option Nat) (bucket : Digest × List Path) : Nat :=
  if bucket.2.length ≤ 1 then 0
  else (((sortPaths bucket.2).tail).filterMap sizeOf).sum

/-- Result of one `io::stdin().read_line(..)` call: a line (without trailing
newline handling mattering, since the program trims), or an I/O error. -/
inductive ReadResult where
  | ok (line : Str)
  | err
deriving DecidableEq, Repr

/-- One `read_line` against a canned input list; end of input behaves like
Rust `read_line` at EOF: `Ok(0)`, i.e. an empty line. -/
def read_line : List ReadResult → ReadResult × List ReadResult
  | [] => (.ok [], [])
  | i :: rest => (i, rest)

/-- Models `str::trim`: removes whitespace from both ends of the line. -/
def trimStr (s : Str) : Str :=
  ((s.dropWhile Char.isWhitespace).reverse.dropWhile Char.isWhitespace).reverse

/-- ASCII lower-casing of one character (models `u8::to_ascii_lowercase`). -/
def asciiLower (c : Char) : Char :=
  if 'A' ≤ c ∧ c ≤ 'Z' then Char.ofNat (c.toNat + 32) else c

/-- Models `str::eq_ignore_ascii_case`. -/
def eq_ignore_ascii_case (a b : Str) : Bool :=
  a.map asciiLower == b.map asciiLower

/-- `src/main.rs` lines 70-85, `ask_yes_no`: `true` exactly for a trimmed
answer of "y"/"yes" ignoring ASCII case; a `read_line` error yields `false`. -/
def ask_yes_no (input : ReadResult) : Bool :=
  match input with
  | .ok line =>
    let answer := trimStr line
    eq_ignore_ascii_case answer ['y'] || eq_ignore_ascii_case answer ['y', 'e', 's']
  | .err => false

/-- Models `str::parse::<usize>()`: an optional leading `+`, then at least one
ASCII digit; values at or above `2 ^ 64` overflow `usize` and fail. -/
def parse_usize (s : Str) : Option Nat :=
  let t := match s with
    | '+' :: rest => rest
    | _ => s
  if t ≠ [] ∧ t.all Char.isDigit then
    let v := t.foldl (fun n c => n * 10 + (c.toNat - '0'.toNat)) 0
    if v < 2 ^ 64 then some v else none
  else none

/-- The "keep all" tokens accepted by the interactive prompt
(`src/main.rs` line 123): "a" or "all", ignoring ASCII case. -/
def isKeepAllToken (t : Str) : Bool :=
  eq_ignore_ascii_case t ['a'] || eq_ignore_ascii_case t ['a', 'l', 'l']

/-- `src/main.rs` lines 103-139, `prompt_for_selection`: loop over input lines;
a read error defaults to `some 1`, an empty trimmed line defaults to `some 1`,
the keep-all token yields `none`, a number in `[1, max]` yields `some n`, and
anything else re-prompts.  Returns the choice and the remaining input.  An
empty input list is EOF: `read_line` gives an empty line, hence `some 1`. -/
def prompt_for_selection (max : Nat) : List ReadResult → Option Nat × List ReadResult
  | [] => (some 1, [])
  | .err :: rest => (some 1, rest)
  | .ok line :: rest =>
    let trimmed := trimStr line
    if trimmed = [] then (some 1, rest)
    else if isKeepAllToken trimmed then (none, rest)
    else
      match parse_usize trimmed with
      | some num =>
        if 1 ≤ num ∧ num ≤ max then (some num, rest) else prompt_for_selection max rest
      | none => prompt_for_selection max rest

/-- The filesystem: a finite map from existing paths to their sizes,
as an association list. -/
abbrev FS := List (Path × Nat)

/-- Models `fs::metadata(path).map(|m| m.len())`. -/
def FS.metadata (fs : FS) (p : Path) : Option Nat :=
  (fs.find? (fun e => e.1 == p)).map (fun e => e.2)

/-- Models a successful `fs::remove_file(path)`. -/
def FS.removeFile (fs : FS) (p : Path) : FS :=
  fs.filter (fun e => !(e.1 == p))

/-- The paths that currently exist. -/
def FS.paths (fs : FS) : List Path :=
  fs.map Prod.fst

/-- Per-file outcome tags of `delete_path` (DELETED / FAILED / SKIPPED). -/
inductive DeleteOutcome where
  | deleted (size : Nat)
  | failed
  | skipped
deriving DecidableEq, Repr

/-- `src/main.rs` lines 142-172, `delete_path`: metadata lookup failure is
SKIPPED; otherwise removal is attempted — success is DELETED with the size
observed by the lookup, failure (modelled by `removeOk p = false`) is FAILED.
Returns the outcome and the updated filesystem. -/
def delete_path (removeOk : Path → Bool) (fs : FS) (path : Path) :
    DeleteOutcome × FS :=
  match FS.metadata fs path with
  | some size =>
    if removeOk path then (.deleted size, FS.removeFile fs path)
    else (.failed, fs)
  | none => (.skipped, fs)

/-- The loop of `delete_files` (`src/main.rs` lines 185-190) with the two
mutable accumulators `deleted_count` and `deleted_bytes` made explicit. -/
def delete_files_go (removeOk : Path → Bool) (acc : Nat × Nat) (fs : FS) :
    List Path → (Nat × Nat) × FS
  | [] => (acc, fs)
  | p :: rest =>
    match delete_path removeOk fs p with
    | (.deleted size, fs1) => delete_files_go removeOk (acc.1 + 1, acc.2 + size) fs1 rest
    | (_, fs1) => delete_files_go removeOk acc fs1 rest

/-- `src/main.rs` lines 179-193, `delete_files`: returns
`(deleted_count, deleted_bytes)` and the final filesystem. -/
def delete_files (removeOk : Path → Bool) (fs : FS) (paths : List Path) :
    (Nat × Nat) × FS :=
  delete_files_go removeOk (0, 0) fs paths

/-- The sequence of per-file outcomes produced by the `delete_files` loop;
its length witnesses that every path in the list is attempted. -/
def deleteOutcomes (removeOk : Path → Bool) (fs : FS) : List Path → List DeleteOutcome
  | [] => []
  | p :: rest =>
    let r := delete_path removeOk fs p
    r.1 :: deleteOutcomes removeOk r.2 rest

/-- Number of DELETED outcomes in a trace. -/
def countDeleted (os : List DeleteOutcome) : Nat :=
  os.countP (fun o => match o with | .deleted _ => true | _ => false)

/-- Total bytes of the DELETED outcomes in a trace. -/
def sumDeleted (os : List DeleteOutcome) : Nat :=
  (os.filterMap (fun o => match o with | .deleted s => some s | _ => none)).sum

/-- The inner loop of `delete_files_interactively` (`src/main.rs` lines
254-262): enumerate the candidates from index `i`, skip index `keep_idx`,
delete the rest, accumulating count and bytes. -/
def delete_candidates (removeOk : Path → Bool) (acc : Nat × Nat) (fs : FS)
    (keep_idx : Nat) (i : Nat) : List Path → (Nat × Nat) × FS
  | [] => (acc, fs)
  | p :: rest =>
    if i = keep_idx then delete_candidates removeOk acc fs keep_idx (i + 1) rest
    else
      match delete_path removeOk fs p with
      | (.deleted size, fs1) =>
        delete_candidates removeOk (acc.1 + 1, acc.2 + size) fs1 keep_idx (i + 1) rest
      | (_, fs1) => delete_candidates removeOk acc fs1 keep_idx (i + 1) rest

/-- The per-group loop of `delete_files_interactively` (`src/main.rs` lines
209-263): for each group the candidate list is `keep` followed by the dupes;
the prompt result `none` keeps all (no deletion for the group), `some n` keeps
candidate `n` and deletes the others.  Threads the accumulators, the
filesystem and the remaining input. -/
def delete_files_interactively_go (removeOk : Path → Bool) (acc : Nat × Nat)
    (fs : FS) (inputs : List ReadResult) :
    List DuplicateGroup → (Nat × Nat) × FS × List ReadResult
  | [] => (acc, fs, inputs)
  | g :: gs =>
    let candidates := g.keep :: g.dupes
    match prompt_for_selection candidates.length inputs with
    | (none, rest) => delete_files_interactively_go removeOk acc fs rest gs
    | (some n, rest) =>
      let r := delete_candidates removeOk acc fs (n - 1) 0 candidates
      delete_files_interactively_go removeOk r.1 r.2 rest gs

/-- `src/main.rs` lines 198-266, `delete_files_interactively`. -/
def delete_files_interactively (removeOk : Path → Bool) (fs : FS)
    (inputs : List ReadResult) (groups : List DuplicateGroup) :
    (Nat × Nat) × FS × List ReadResult :=
  delete_files_interactively_go removeOk (0, 0) fs inputs groups

/-- `src/main.rs` lines 269-304, `write_json_report`, restricted to its
filesystem effect: it creates (or overwrites) the report file at
`output_path` and deletes nothing.  The serialized JSON content is not
modelled; the report entry is recorded with size 0. -/
def write_json_report (fs : FS) (output_path : Path) : FS :=
  FS.removeFile fs output_path ++ [(output_path, 0)]

/-- The command-line arguments relevant to the claims
(`src/main.rs` lines 35-50). -/
structure Args where
  dry_run : Bool
  interactive : Bool
  json_output : Option Path
deriving DecidableEq, Repr

/-- Observable result of one run of `main`: the final filesystem, the process
exit code (0 = success), and whether the hashing step was reached. -/
structure MainResult where
  fs : FS
  exit_code : Nat
  hashed : Bool
deriving DecidableEq, Repr

/-- `src/main.rs` lines 306-483, `main`, restricted to control flow,
filesystem effect and exit status.  Parameters model the environment:
`root_exists` is `args.path.exists()`; `files_empty` is
`collect_files(&root).is_empty()`; `m` is the digest-bucket map produced by
hashing (hashing itself is not modelled — the claims do not depend on digest
values); `write_ok` tells whether writing the JSON report succeeds; `inputs`
is standard input; `removeOk` tells which removals succeed.
Branches, in source order: a missing root prints an error and returns
(exit code 0); an empty file list returns (exit 0) before any hashing;
JSON mode writes the report and exits 0, or exits 1 when the write fails;
no groups, no removable files, and dry-run all return with exit 0 and an
untouched filesystem; interactive mode runs the per-group workflow; otherwise
one yes/no confirmation guards `delete_files` over `removable_files`. -/
def main_model (args : Args) (root_exists : Bool) (files_empty : Bool)
    (write_ok : Bool) (m : List (Digest × List Path))
    (inputs : List ReadResult) (removeOk : Path → Bool) (fs : FS) : MainResult :=
  if root_exists = false then { fs := fs, exit_code := 0, hashed := false }
  else if files_empty then { fs := fs, exit_code := 0, hashed := false }
  else
    let analysis := analyse_duplicates (FS.metadata fs) m
    match args.json_output with
    | some output_path =>
      if write_ok then { fs := write_json_report fs output_path, exit_code := 0, hashed := true }
      else { fs := fs, exit_code := 1, hashed := true }
    | none =>
      if analysis.groups = [] then { fs := fs, exit_code := 0, hashed := true }
      else if analysis.removable_files = [] then { fs := fs, exit_code := 0, hashed := true }
      else if args.dry_run then { fs := fs, exit_code := 0, hashed := true }
      else if args.interactive then
        let r := delete_files_interactively removeOk fs inputs analysis.groups
        { fs := r.2.1, exit_code := 0, hashed := true }
      else
        let a := read_line inputs
        if ask_yes_no a.1 then
          let r := delete_files removeOk fs analysis.removable_files
          { fs := r.2, exit_code := 0, hashed := true }
        else { fs := fs, exit_code := 0, hashed := true }

/-- A concrete bucket map in which the path "b" occurs in two buckets
(impossible for a map produced by hashing, where each path has one digest,
but allowed by the type of `analyse_duplicates`). -/
def overlappingBuckets : List (Digest × List Path) :=
  [(['h'], [['b'], ['c']]), (['g'], [['a'], ['b']])]

/-- A concrete two-bucket map, and the same map in the other iteration
order (Rust `HashMap` iteration order is arbitrary and varies across runs). -/
def bucketsOrderA : List (Digest × List Path) :=
  [(['h'], [['a'], ['b']]), (['g'], [['c'], ['d']])]

/-- The same buckets as `bucketsOrderA`, iterated in the reverse order. -/
def bucketsOrderB : List (Digest × List Path) :=
  [(['g'], [['c'], ['d']]), (['h'], [['a'], ['b']])]

/-- Flag combination of a plain batch-confirm run (no flags). -/
def batchArgs : Args :=
  { dry_run := false, interactive := false, json_output := none }

/-- Flag combination of a dry run. -/
def dryRunArgs : Args :=
  { dry_run := true, interactive := false, json_output := none }

/-- Flag combination of a report-only run writing to the path "r". -/
def reportArgs : Args :=
  { dry_run := false, interactive := false, json_output := some ['r'] }

/-! ## Helper lemmas about sorting -/

theorem sortPaths_perm (l : List Path) : (sortPaths l).Perm l :=
  List.perm_insertionSort _ _

theorem sortPaths_sorted (l : List Path) : List.Sorted (· ≤ ·) (sortPaths l) :=
  List.sorted_insertionSort _ _

theorem sortPaths_eq_of_perm {l1 l2 : List Path} (h : l1.Perm l2) :
    sortPaths l1 = sortPaths l2 :=
  List.eq_of_perm_of_sorted
    ((sortPaths_perm l1).trans (h.trans (sortPaths_perm l2).symm))
    (sortPaths_sorted l1) (sortPaths_sorted l2)

theorem sortPaths_length (l : List Path) : (sortPaths l).length = l.length :=
  (sortPaths_perm l).length_eq

theorem sortPaths_head_le {l : List Path} {k : Path} {t : List Path}
    (h : sortPaths l = k :: t) : ∀ p ∈ l, k ≤ p := by
  intro p hp
  have hmem : p ∈ k :: t := h ▸ (sortPaths_perm l).symm.subset hp
  have hs := sortPaths_sorted l
  rw [h, List.sorted_cons] at hs
  rcases List.mem_cons.mp hmem with rfl | hpt
  · exact le_refl p
  · exact hs.1 p hpt

theorem headI_cons_tail_of_ne_nil {l : List Path} (h : l ≠ []) :
    l.headI :: l.tail = l := by
  obtain ⟨a, t, rfl⟩ := List.exists_cons_of_ne_nil h
  rfl

/-! ## Characterisation of `analyse_duplicates` -/

theorem foldl_analyseStep (sizeOf : Path → Option Nat) :
    ∀ (m : List (Digest × List Path)) (acc : DuplicateAnalysis),
      m.foldl (analyseStep sizeOf) acc =
        { groups := acc.groups ++ m.filterMap bucketGroup
          removable_files := acc.removable_files ++ m.flatMap bucketDupes
          total_saving_bytes :=
            acc.total_saving_bytes + (m.map (bucketSaving sizeOf)).sum } := by
  intro m
  induction m with
  | nil => intro acc; simp
  | cons b m ih =>
    intro acc
    rw [List.foldl_cons, ih]
    by_cases h : b.2.length ≤ 1 <;>
      simp [analyseStep, bucketGroup, bucketDupes, bucketSaving, h, add_assoc]

theorem analyse_duplicates_eq (sizeOf : Path → Option Nat)
    (m : List (Digest × List Path)) :
    analyse_duplicates sizeOf m =
      { groups := m.filterMap bucketGroup
        removable_files := m.flatMap bucketDupes
        total_saving_bytes := (m.map (bucketSaving sizeOf)).sum } := by
  rw [analyse_duplicates, foldl_analyseStep]
  simp

theorem bucketGroup_of_big {b : Digest × List Path} (h : ¬ b.2.length ≤ 1) :
    bucketGroup b =
      some { keep := (sortPaths b.2).headI, dupes := (sortPaths b.2).tail } := by
  simp [bucketGroup, h]

theorem bucketGroup_cons_eq_sort {b : Digest × List Path} {g : DuplicateGroup}
    (h : bucketGroup b = some g) : g.keep :: g.dupes = sortPaths b.2 := by
  by_cases hb : b.2.length ≤ 1
  · simp [bucketGroup, hb] at h
  · rw [bucketGroup_of_big hb] at h
    cases h
    refine headI_cons_tail_of_ne_nil ?_
    intro hnil
    have := sortPaths_length b.2
    rw [hnil] at this
    simp at this
    omega

/-! ## Claim C1 -/

/-- Claim C1: for every bucket of the input digest-to-paths map with at least
two members, `analyse_duplicates` emits exactly one group for that bucket
(the groups list is the `filterMap` of `bucketGroup` over the buckets in
order), whose `keep` is the lexicographically smallest path of the bucket and
whose `dupes` are exactly the remaining members; a bucket with fewer than two
members produces no group; and the group produced by a bucket is independent
of the order in which the paths appear within the bucket. -/
theorem analyse_duplicates_bucket_correct (sizeOf : Path → Option Nat)
    (m : List (Digest × List Path)) :
    (analyse_duplicates sizeOf m).groups = m.filterMap bucketGroup
    ∧ (∀ b : Digest × List Path, b.2.length < 2 → bucketGroup b = none)
    ∧ (∀ (b : Digest × List Path) (g : DuplicateGroup), bucketGroup b = some g →
        g.keep ∈ b.2 ∧ (∀ p ∈ b.2, g.keep ≤ p) ∧ (g.keep :: g.dupes).Perm b.2)
    ∧ (∀ (d : Digest) (files1 files2 : List Path), files1.Perm files2 →
        bucketGroup (d, files1) = bucketGroup (d, files2)) := by
  refine ⟨by rw [analyse_duplicates_eq], ?_, ?_, ?_⟩
  · intro b hb
    have : b.2.length ≤ 1 := by omega
    simp [bucketGroup, this]
  · intro b g hg
    have hcons := bucketGroup_cons_eq_sort hg
    have hperm : (g.keep :: g.dupes).Perm b.2 := hcons ▸ sortPaths_perm b.2
    refine ⟨hperm.subset (List.mem_cons_self _ _), ?_, hperm⟩
    exact sortPaths_head_le hcons.symm
  · intro d files1 files2 h
    have hlen : files1.length = files2.length := h.length_eq
    simp only [bucketGroup, sortPaths_eq_of_perm h, hlen]

/-- Witness for C1: applied to a concrete permuted bucket. -/
theorem analyse_duplicates_bucket_correct_witness :
    (([['b'], ['a']] : List Path)).Perm [['a'], ['b']]
    ∧ bucketGroup ((['h'] : Digest), ([['b'], ['a']] : List Path)) =
        bucketGroup (['h'], [['a'], ['b']]) :=
  ⟨by decide,
   (analyse_duplicates_bucket_correct (fun _ => none) []).2.2.2 ['h'] _ _ (by decide)⟩

/-! ## Counting lemmas for the analysis -/

theorem bucketSaving_eq_filterMap_sum (sizeOf : Path → Option Nat)
    (b : Digest × List Path) :
    bucketSaving sizeOf b = ((bucketDupes b).filterMap sizeOf).sum := by
  by_cases h : b.2.length ≤ 1 <;> simp [bucketSaving, bucketDupes, h]

theorem total_eq_removable_filterMap_sum (sizeOf : Path → Option Nat)
    (m : List (Digest × List Path)) :
    (m.map (bucketSaving sizeOf)).sum =
      ((m.flatMap bucketDupes).filterMap sizeOf).sum := by
  induction m with
  | nil => simp
  | cons b m ih =>
    simp [List.flatMap_cons, List.filterMap_append, ih, bucketSaving_eq_filterMap_sum]

theorem count_bucketDupes_le (b : Digest × List Path) (p : Path) :
    Multiset.count p (bucketDupes b : Multiset Path)
      ≤ Multiset.count p (b.2 : Multiset Path) := by
  by_cases h : b.2.length ≤ 1
  · simp [bucketDupes, h]
  · have h1 : bucketDupes b = (sortPaths b.2).tail := by simp [bucketDupes, h]
    rw [h1]
    calc Multiset.count p ((sortPaths b.2).tail : Multiset Path)
        ≤ Multiset.count p (sortPaths b.2 : Multiset Path) :=
          Multiset.count_le_of_le p (Multiset.coe_le.mpr (List.tail_sublist _).subperm)
      _ = Multiset.count p (b.2 : Multiset Path) := by
          rw [Multiset.coe_eq_coe.mpr (sortPaths_perm b.2)]

theorem count_flatMap_dupes_le (m : List (Digest × List Path)) (p : Path) :
    Multiset.count p (m.flatMap bucketDupes : Multiset Path)
      ≤ Multiset.count p (m.flatMap Prod.snd : Multiset Path) := by
  induction m with
  | nil => simp
  | cons b m ih =>
    simp only [List.flatMap_cons, ← Multiset.coe_add, Multiset.count_add]
    exact Nat.add_le_add (count_bucketDupes_le b p) ih

theorem count_keep_add_dupes_le (m : List (Digest × List Path)) (p : Path) :
    Multiset.count p (((m.filterMap bucketGroup).map DuplicateGroup.keep : List Path) : Multiset Path)
      + Multiset.count p (m.flatMap bucketDupes : Multiset Path)
      ≤ Multiset.count p (m.flatMap Prod.snd : Multiset Path) := by
  induction m with
  | nil => simp
  | cons b m ih =>
    by_cases h : b.2.length ≤ 1
    · have h1 : bucketGroup b = none := by simp [bucketGroup, h]
      have h2 : bucketDupes b = [] := by simp [bucketDupes, h]
      simp only [List.flatMap_cons, List.filterMap_cons, h1, h2, List.nil_append,
        ← Multiset.coe_add, Multiset.count_add]
      omega
    · have hne : sortPaths b.2 ≠ [] := by
        intro hnil
        have := sortPaths_length b.2
        rw [hnil] at this
        simp at this
        omega
      have hg := bucketGroup_of_big h
      have h2 : bucketDupes b = (sortPaths b.2).tail := by simp [bucketDupes, h]
      have hcount : Multiset.count p
            (((sortPaths b.2).headI :: (sortPaths b.2).tail : List Path) : Multiset Path)
          = Multiset.count p (b.2 : Multiset Path) := by
        rw [headI_cons_tail_of_ne_nil hne, Multiset.coe_eq_coe.mpr (sortPaths_perm b.2)]
      rw [show ((sortPaths b.2).headI :: (sortPaths b.2).tail : List Path)
            = [(sortPaths b.2).headI] ++ (sortPaths b.2).tail from rfl] at hcount
      simp only [← Multiset.coe_add, Multiset.count_add] at hcount
      have hmap : ((b :: m).filterMap bucketGroup).map DuplicateGroup.keep
          = [(sortPaths b.2).headI] ++ (m.filterMap bucketGroup).map DuplicateGroup.keep := by
        simp [List.filterMap_cons, hg]
      rw [hmap]
      simp only [List.flatMap_cons, h2, ← Multiset.coe_add, Multiset.count_add]
      omega

/-! ## Claim C5 -/

/-- Claim C5: `total_saving_bytes` is exactly the sum of the sizes of those
`removable_files` whose metadata lookup (`sizeOf`) succeeded at analysis time
(each list entry counted once; a dupe whose lookup fails is still in
`removable_files` and contributes nothing); and when no path occurs twice
across the input buckets, `removable_files` has no duplicate entries, so no
file is counted twice.  `analyse_duplicates` is a total function, so a failed
lookup never makes the analysis fail. -/
theorem total_saving_bytes_correct (sizeOf : Path → Option Nat)
    (m : List (Digest × List Path)) :
    (analyse_duplicates sizeOf m).total_saving_bytes =
      ((analyse_duplicates sizeOf m).removable_files.filterMap sizeOf).sum
    ∧ ((m.flatMap Prod.snd).Nodup →
        (analyse_duplicates sizeOf m).removable_files.Nodup) := by
  rw [analyse_duplicates_eq]
  refine ⟨total_eq_removable_filterMap_sum sizeOf m, ?_⟩
  intro hnd
  rw [← Multiset.coe_nodup, Multiset.nodup_iff_count_le_one] at hnd ⊢
  intro a
  exact le_trans (count_flatMap_dupes_le m a) (hnd a)

/-- Witness for C5: a concrete bucket map with a failing lookup on one dupe. -/
theorem total_saving_bytes_correct_witness :
    (analyse_duplicates (fun p => if p = ['b'] then some 7 else none)
        [(['h'], [['a'], ['b'], ['c']])]).total_saving_bytes = 7
    ∧ (([((['h'] : Digest), ([['a'], ['b'], ['c']] : List Path))].flatMap Prod.snd).Nodup
       ∧ (analyse_duplicates (fun p => if p = ['b'] then some 7 else none)
            [(['h'], [['a'], ['b'], ['c']])]).removable_files.Nodup) :=
  ⟨by decide,
   by decide,
   (total_saving_bytes_correct (fun p => if p = ['b'] then some 7 else none)
      [(['h'], [['a'], ['b'], ['c']])]).2 (by decide)⟩

/-! ## Claim C6 -/

/-- Counterexample to C6 as stated: the disjointness half does not hold for
every input bucket map.  If the path "b" occurs in two buckets, the group of
the first bucket keeps "b" while the group of the second bucket lists "b" as
removable, so a keep is in `removable_files`. -/
theorem removable_disjoint_counterexample :
    ¬ ((analyse_duplicates (fun _ => none) overlappingBuckets).removable_files.length =
          ((analyse_duplicates (fun _ => none) overlappingBuckets).groups.map
            (fun g => g.dupes.length)).sum
       ∧ ∀ g ∈ (analyse_duplicates (fun _ => none) overlappingBuckets).groups,
          g.keep ∉ (analyse_duplicates (fun _ => none) overlappingBuckets).removable_files) := by
  decide

/-- Claim C6 (amended): for every input bucket map the length of
`removable_files` equals the sum of the `dupes` lengths over all groups; and
provided no path occurs in more than one bucket entry (as is the case for any
map produced by hashing a scanned file list), `removable_files` is disjoint
from the keeps of all groups. -/
theorem removable_matches_groups (sizeOf : Path → Option Nat)
    (m : List (Digest × List Path)) :
    (analyse_duplicates sizeOf m).removable_files.length =
      ((analyse_duplicates sizeOf m).groups.map (fun g => g.dupes.length)).sum
    ∧ ((m.flatMap Prod.snd).Nodup →
        ∀ g ∈ (analyse_duplicates sizeOf m).groups,
          g.keep ∉ (analyse_duplicates sizeOf m).removable_files) := by
  rw [analyse_duplicates_eq]
  constructor
  · induction m with
    | nil => simp
    | cons b m ih =>
      by_cases h : b.2.length ≤ 1
      · have h1 : bucketGroup b = none := by simp [bucketGroup, h]
        have h2 : bucketDupes b = [] := by simp [bucketDupes, h]
        simp [List.flatMap_cons, List.filterMap_cons, h1, h2, ih]
      · have hg := bucketGroup_of_big h
        have h2 : bucketDupes b = (sortPaths b.2).tail := by simp [bucketDupes, h]
        simp [List.flatMap_cons, List.filterMap_cons, hg, h2, ih]
  · intro hnd g hgmem hkeep
    rw [← Multiset.coe_nodup, Multiset.nodup_iff_count_le_one] at hnd
    have h1 : 0 < Multiset.count g.keep
        (((m.filterMap bucketGroup).map DuplicateGroup.keep : List Path) : Multiset Path) := by
      rw [Multiset.count_pos, Multiset.mem_coe]
      exact List.mem_map_of_mem _ hgmem
    have h2 : 0 < Multiset.count g.keep (m.flatMap bucketDupes : Multiset Path) := by
      rw [Multiset.count_pos, Multiset.mem_coe]
      exact hkeep
    have h3 := count_keep_add_dupes_le m g.keep
    have h4 := hnd g.keep
    omega

/-- Witness for C6: a concrete two-bucket map with globally distinct paths. -/
theorem removable_matches_groups_witness :
    (([((['h'] : Digest), ([['a'], ['b']] : List Path)),
       (['g'], [['c'], ['d']])].flatMap Prod.snd).Nodup)
    ∧ (∀ g ∈ (analyse_duplicates (fun _ => some 1)
          [((['h'] : Digest), ([['a'], ['b']] : List Path)),
           (['g'], [['c'], ['d']])]).groups,
        g.keep ∉ (analyse_duplicates (fun _ => some 1)
          [((['h'] : Digest), ([['a'], ['b']] : List Path)),
           (['g'], [['c'], ['d']])]).removable_files) :=
  ⟨by decide,
   (removable_matches_groups (fun _ => some 1)
      [((['h'] : Digest), ([['a'], ['b']] : List Path)),
       (['g'], [['c'], ['d']])]).2 (by decide)⟩

/-! ## Claim C9 -/

/-- Pointwise invariance of the per-bucket data under reordering of the paths
within the bucket. -/
theorem bucket_fns_eq_of_perm {b1 b2 : Digest × List Path}
    (hp : b1.2.Perm b2.2) (sizeOf : Path → Option Nat) :
    bucketGroup b1 = bucketGroup b2 ∧ bucketDupes b1 = bucketDupes b2
    ∧ bucketSaving sizeOf b1 = bucketSaving sizeOf b2 := by
  have hs := sortPaths_eq_of_perm hp
  have hl := hp.length_eq
  refine ⟨?_, ?_, ?_⟩ <;> simp only [bucketGroup, bucketDupes, bucketSaving, hs, hl]

/-- Counterexample to C9 as stated: the two iteration orders of the same
digest-to-paths contents produce outputs that are not byte-identical — the
groups come out in a different order, following bucket iteration order. -/
theorem analysis_bucket_order_counterexample :
    bucketsOrderA.Perm bucketsOrderB
    ∧ analyse_duplicates (fun _ => some 1) bucketsOrderA ≠
        analyse_duplicates (fun _ => some 1) bucketsOrderB := by
  decide

/-- Claim C9 (amended): re-running `analyse_duplicates` on the same
digest-to-paths contents yields the same `total_saving_bytes`, and the same
groups (hence the same keep selections) and the same `removable_files` up to
list order: permuting the bucket iteration order permutes `groups` and
`removable_files` correspondingly, and permuting the paths inside each bucket
leaves the output exactly identical.  Byte-identical output is guaranteed only
when the bucket iteration order is also unchanged. -/
theorem analysis_reproducible (sizeOf : Path → Option Nat)
    (m1 m2 : List (Digest × List Path)) :
    (m1.Perm m2 →
      (analyse_duplicates sizeOf m1).groups.Perm (analyse_duplicates sizeOf m2).groups
      ∧ (analyse_duplicates sizeOf m1).removable_files.Perm
          (analyse_duplicates sizeOf m2).removable_files
      ∧ (analyse_duplicates sizeOf m1).total_saving_bytes =
          (analyse_duplicates sizeOf m2).total_saving_bytes)
    ∧ (List.Forall₂ (fun b1 b2 => b1.1 = b2.1 ∧ b1.2.Perm b2.2) m1 m2 →
      analyse_duplicates sizeOf m1 = analyse_duplicates sizeOf m2) := by
  constructor
  · intro h
    rw [analyse_duplicates_eq, analyse_duplicates_eq]
    exact ⟨h.filterMap _, h.flatMap_right _, (h.map (bucketSaving sizeOf)).sum_eq⟩
  · intro h
    rw [analyse_duplicates_eq, analyse_duplicates_eq]
    have key : m1.filterMap bucketGroup = m2.filterMap bucketGroup
        ∧ m1.flatMap bucketDupes = m2.flatMap bucketDupes
        ∧ m1.map (bucketSaving sizeOf) = m2.map (bucketSaving sizeOf) := by
      induction h with
      | nil => exact ⟨rfl, rfl, rfl⟩
      | cons hb _ ih =>
        obtain ⟨hg, hd2, hs⟩ := bucket_fns_eq_of_perm hb.2 sizeOf
        refine ⟨?_, ?_, ?_⟩ <;>
          simp [List.filterMap_cons, List.flatMap_cons, hg, hd2, hs, ih.1, ih.2.1, ih.2.2]
    rw [key.1, key.2.1, key.2.2]

/-- Witness for C9: the reordered concrete buckets give equal savings. -/
theorem analysis_reproducible_witness :
    bucketsOrderA.Perm bucketsOrderB
    ∧ (analyse_duplicates (fun _ => some 1) bucketsOrderA).total_saving_bytes =
        (analyse_duplicates (fun _ => some 1) bucketsOrderB).total_saving_bytes :=
  ⟨by decide,
   ((analysis_reproducible (fun _ => some 1) bucketsOrderA bucketsOrderB).1
      (by decide)).2.2⟩

/-! ## Claim C4 -/

/-- The deletion loop with a starting accumulator `(c, b)` produces the same
final filesystem as with `(0, 0)`, and counters shifted by `c` and `b`
(the loop only ever adds to the accumulators). -/
theorem delete_files_go_shift (ro : Path → Bool) :
    ∀ (paths : List Path) (fs : FS) (c b : Nat),
      delete_files_go ro (c, b) fs paths =
        ((c + (delete_files_go ro (0, 0) fs paths).1.1,
          b + (delete_files_go ro (0, 0) fs paths).1.2),
         (delete_files_go ro (0, 0) fs paths).2) := by
  intro paths
  induction paths with
  | nil => intro fs c b; simp [delete_files_go]
  | cons p rest ih =>
    intro fs c b
    rcases hdp : delete_path ro fs p with ⟨o, fs1⟩
    cases o with
    | deleted size =>
      simp only [delete_files_go, hdp, Nat.zero_add]
      rw [ih fs1 (c + 1) (b + size), ih fs1 1 size]
      simp [Nat.add_assoc]
    | failed =>
      simp only [delete_files_go, hdp]
      exact ih fs1 c b
    | skipped =>
      simp only [delete_files_go, hdp]
      exact ih fs1 c b

theorem delete_files_cons_deleted (ro : Path → Bool) (fs : FS) (p : Path)
    (rest : List Path) (size : Nat) (fs1 : FS)
    (h : delete_path ro fs p = (.deleted size, fs1)) :
    delete_files ro fs (p :: rest) =
      ((1 + (delete_files ro fs1 rest).1.1, size + (delete_files ro fs1 rest).1.2),
       (delete_files ro fs1 rest).2) := by
  simp only [delete_files, delete_files_go, h, Nat.zero_add]
  exact delete_files_go_shift ro rest fs1 1 size

theorem delete_files_cons_other (ro : Path → Bool) (fs : FS) (p : Path)
    (rest : List Path) (o : DeleteOutcome) (fs1 : FS)
    (h : delete_path ro fs p = (o, fs1)) (ho : ∀ s, o ≠ .deleted s) :
    delete_files ro fs (p :: rest) = delete_files ro fs1 rest := by
  cases o with
  | deleted size => exact absurd rfl (ho size)
  | failed => simp only [delete_files, delete_files_go, h]
  | skipped => simp only [delete_files, delete_files_go, h]

theorem deleteOutcomes_length (ro : Path → Bool) :
    ∀ (paths : List Path) (fs : FS),
      (deleteOutcomes ro fs paths).length = paths.length := by
  intro paths
  induction paths with
  | nil => intro fs; rfl
  | cons p rest ih =>
    intro fs
    simp [deleteOutcomes, ih]

theorem delete_files_counts (ro : Path → Bool) :
    ∀ (paths : List Path) (fs : FS),
      (delete_files ro fs paths).1 =
        (countDeleted (deleteOutcomes ro fs paths),
         sumDeleted (deleteOutcomes ro fs paths)) := by
  intro paths
  induction paths with
  | nil => intro fs; rfl
  | cons p rest ih =>
    intro fs
    rcases hdp : delete_path ro fs p with ⟨o, fs1⟩
    have houtc : deleteOutcomes ro fs (p :: rest) = o :: deleteOutcomes ro fs1 rest := by
      simp [deleteOutcomes, hdp]
    cases o with
    | deleted size =>
      rw [delete_files_cons_deleted ro fs p rest size fs1 hdp, houtc, ih fs1]
      simp [countDeleted, sumDeleted, List.countP_cons, Nat.add_comm]
    | failed =>
      rw [delete_files_cons_other ro fs p rest _ fs1 hdp (by intro s h; cases h), houtc, ih fs1]
      simp [countDeleted, sumDeleted, List.countP_cons]
    | skipped =>
      rw [delete_files_cons_other ro fs p rest _ fs1 hdp (by intro s h; cases h), houtc, ih fs1]
      simp [countDeleted, sumDeleted, List.countP_cons]

/-- Claim C4: per-file deletion.  A failed metadata lookup yields SKIPPED and
leaves the filesystem untouched; a successful lookup followed by a successful
removal yields DELETED with the size observed by that lookup and removes the
file; a failed removal yields FAILED and leaves the filesystem untouched.
The deletion loop attempts every candidate (one outcome per path, no early
abort), and its final counters are exactly the number of DELETED outcomes and
the sum of their sizes — SKIPPED and FAILED contribute nothing. -/
theorem delete_path_isolation (removeOk : Path → Bool) (fs : FS) (p : Path)
    (paths : List Path) :
    (FS.metadata fs p = none → delete_path removeOk fs p = (.skipped, fs))
    ∧ (∀ size, FS.metadata fs p = some size → removeOk p = true →
        delete_path removeOk fs p = (.deleted size, FS.removeFile fs p))
    ∧ (∀ size, FS.metadata fs p = some size → removeOk p = false →
        delete_path removeOk fs p = (.failed, fs))
    ∧ (deleteOutcomes removeOk fs paths).length = paths.length
    ∧ (delete_files removeOk fs paths).1 =
        (countDeleted (deleteOutcomes removeOk fs paths),
         sumDeleted (deleteOutcomes removeOk fs paths)) := by
  refine ⟨?_, ?_, ?_, deleteOutcomes_length removeOk paths fs,
    delete_files_counts removeOk paths fs⟩
  · intro h; simp [delete_path, h]
  · intro size h hro; simp [delete_path, h, hro]
  · intro size h hro; simp [delete_path, h, hro]

/-- Witness for C4: a concrete run over one deletable file, one file whose
removal fails, and one missing file: counters reflect only the deletion. -/
theorem delete_path_isolation_witness :
    (FS.metadata ([(['a'], 3), (['b'], 4)] : FS) ['c'] = none
      ∧ delete_path (fun q => !(q == ['b'])) [(['a'], 3), (['b'], 4)] ['c'] =
          (.skipped, [(['a'], 3), (['b'], 4)]))
    ∧ (delete_files (fun q => !(q == ['b'])) [(['a'], 3), (['b'], 4)]
        [['a'], ['b'], ['c']]).1 = (1, 3) :=
  ⟨⟨by decide,
    (delete_path_isolation (fun q => !(q == ['b'])) [(['a'], 3), (['b'], 4)]
       ['c'] []).1 (by decide)⟩,
   by decide⟩

/-! ## Claim C2 -/

/-- Claim C2: in batch-confirm mode (no dry-run, no interactive, no JSON
output, and a non-trivial analysis), after the one yes/no question: an answer
whose trimmed text is "y" or "yes" ignoring ASCII case makes the run execute
`delete_files` over the whole `removable_files` list (and the deletion loop
attempts every one of those paths — one outcome per path); any other answer,
including a read error, leaves the filesystem exactly as it was. -/
theorem batch_mode_correct (args : Args) (m : List (Digest × List Path))
    (ans : ReadResult) (rest : List ReadResult) (removeOk : Path → Bool)
    (fs : FS) (write_ok : Bool)
    (hjson : args.json_output = none) (hdry : args.dry_run = false)
    (hint : args.interactive = false)
    (hg : (analyse_duplicates (FS.metadata fs) m).groups ≠ [])
    (hr : (analyse_duplicates (FS.metadata fs) m).removable_files ≠ []) :
    (ask_yes_no ans = true →
      main_model args true false write_ok m (ans :: rest) removeOk fs =
        { fs := (delete_files removeOk fs
            (analyse_duplicates (FS.metadata fs) m).removable_files).2,
          exit_code := 0, hashed := true })
    ∧ (ask_yes_no ans = false →
      main_model args true false write_ok m (ans :: rest) removeOk fs =
        { fs := fs, exit_code := 0, hashed := true })
    ∧ (∀ line, ask_yes_no (.ok line) =
        (eq_ignore_ascii_case (trimStr line) ['y']
          || eq_ignore_ascii_case (trimStr line) ['y', 'e', 's']))
    ∧ (deleteOutcomes removeOk fs
        (analyse_duplicates (FS.metadata fs) m).removable_files).length =
        (analyse_duplicates (FS.metadata fs) m).removable_files.length := by
  refine ⟨?_, ?_, fun line => rfl, deleteOutcomes_length _ _ _⟩
  · intro hy
    simp only [main_model, hjson, hdry, hint, read_line, if_neg hg, if_neg hr, hy]
    simp
  · intro hn
    simp only [main_model, hjson, hdry, hint, read_line, if_neg hg, if_neg hr, hn]
    simp

/-- Witness for C2: an affirmative " Y " answer on a concrete two-file
duplicate group deletes exactly the dupe. -/
theorem batch_mode_correct_witness :
    ask_yes_no (.ok [' ', 'Y']) = true
    ∧ main_model { dry_run := false, interactive := false, json_output := none }
        true false true [(['h'], [['a'], ['b']])] [.ok [' ', 'Y']] (fun _ => true)
        [(['a'], 1), (['b'], 2)] =
        { fs := [(['a'], 1)], exit_code := 0, hashed := true } := by
  refine ⟨by decide, ?_⟩
  have h := (batch_mode_correct
      { dry_run := false, interactive := false, json_output := none }
      [(['h'], [['a'], ['b']])] (.ok [' ', 'Y']) [] (fun _ => true)
      [(['a'], 1), (['b'], 2)] true rfl rfl rfl (by decide) (by decide)).1 (by decide)
  rw [h]
  decide

/-! ## Claims C3 and C10 -/

/-- When the skipped index lies strictly before the remaining candidates, the
candidate loop degenerates to the plain deletion loop. -/
theorem delete_candidates_no_skip (ro : Path → Bool) :
    ∀ (cs : List Path) (i k : Nat) (acc : Nat × Nat) (fs : FS), k < i →
      delete_candidates ro acc fs k i cs = delete_files_go ro acc fs cs := by
  intro cs
  induction cs with
  | nil => intro i k acc fs h; rfl
  | cons p rest ih =>
    intro i k acc fs h
    have hne : ¬ i = k := by omega
    simp only [delete_candidates, if_neg hne]
    rcases hdp : delete_path ro fs p with ⟨o, fs1⟩
    cases o <;> simp only [delete_files_go, hdp] <;> exact ih _ _ _ _ (by omega)

/-- The candidate loop that skips absolute index `k`, started at index `i ≤ k`,
equals the plain deletion loop over the list with relative index `k - i`
removed. -/
theorem delete_candidates_eraseIdx (ro : Path → Bool) :
    ∀ (cs : List Path) (i k : Nat) (acc : Nat × Nat) (fs : FS), i ≤ k →
      delete_candidates ro acc fs k i cs =
        delete_files_go ro acc fs (cs.eraseIdx (k - i)) := by
  intro cs
  induction cs with
  | nil => intro i k acc fs h; rfl
  | cons p rest ih =>
    intro i k acc fs h
    by_cases hik : i = k
    · subst hik
      simp only [delete_candidates, if_pos rfl, Nat.sub_self, List.eraseIdx]
      exact delete_candidates_no_skip ro rest (i + 1) i acc fs (by omega)
    · have hsub : k - i = (k - (i + 1)) + 1 := by omega
      simp only [delete_candidates, if_neg hik, hsub, List.eraseIdx]
      rcases hdp : delete_path ro fs p with ⟨o, fs1⟩
      cases o <;> simp only [delete_files_go, hdp] <;> exact ih _ _ _ _ (by omega)

/-- Claim C3: the interactive prompt and per-group resolution.  For a prompt
over `max` candidates: empty trimmed input resolves to choice 1; the keep-all
token ("a"/"all", any ASCII case) resolves to keep-all; a number `n` with
`1 ≤ n ≤ max` resolves to choice `n`; any other line re-prompts on the
remaining input (and deletes nothing, since only a resolved group deletes).
For a group `g` with candidates `g.keep :: g.dupes`: a resolved choice `n`
deletes exactly the candidates other than index `n` (the candidate list with
index `n - 1` removed) and then continues with the next group; keep-all
deletes nothing for the group. -/
theorem interactive_selection_correct (max : Nat) (line : Str)
    (inputs rest : List ReadResult) (removeOk : Path → Bool) (acc : Nat × Nat)
    (fs : FS) (g : DuplicateGroup) (gs : List DuplicateGroup) (n : Nat) :
    (trimStr line = [] → prompt_for_selection max (.ok line :: rest) = (some 1, rest))
    ∧ (isKeepAllToken (trimStr line) = true →
        prompt_for_selection max (.ok line :: rest) = (none, rest))
    ∧ (trimStr line ≠ [] → isKeepAllToken (trimStr line) = false →
        parse_usize (trimStr line) = some n → 1 ≤ n → n ≤ max →
        prompt_for_selection max (.ok line :: rest) = (some n, rest))
    ∧ (trimStr line ≠ [] → isKeepAllToken (trimStr line) = false →
        (∀ k, parse_usize (trimStr line) = some k → ¬(1 ≤ k ∧ k ≤ max)) →
        prompt_for_selection max (.ok line :: rest) = prompt_for_selection max rest)
    ∧ (prompt_for_selection (g.keep :: g.dupes).length inputs = (some n, rest) →
        delete_files_interactively_go removeOk acc fs inputs (g :: gs) =
          (let r := delete_files_go removeOk acc fs
              ((g.keep :: g.dupes).eraseIdx (n - 1))
           delete_files_interactively_go removeOk r.1 r.2 rest gs))
    ∧ (prompt_for_selection (g.keep :: g.dupes).length inputs = (none, rest) →
        delete_files_interactively_go removeOk acc fs inputs (g :: gs) =
          delete_files_interactively_go removeOk acc fs rest gs) := by
  refine ⟨?_, ?_, ?_, ?_, ?_, ?_⟩
  · intro he
    simp only [prompt_for_selection, if_pos he]
  · intro htok
    by_cases hemp : trimStr line = []
    · rw [hemp] at htok
      exact absurd htok (by decide)
    · simp only [prompt_for_selection, if_neg hemp, htok]
      simp
  · intro hne htok hparse h1 h2
    simp only [prompt_for_selection, if_neg hne, htok, Bool.false_eq_true,
      if_false, hparse]
    exact if_pos ⟨h1, h2⟩
  · intro hne htok hinv
    simp only [prompt_for_selection, if_neg hne, htok, Bool.false_eq_true, if_false]
    rcases hp : parse_usize (trimStr line) with _ | k
    · rfl
    · exact if_neg (hinv k hp)
  · intro hprompt
    simp only [delete_files_interactively_go, hprompt]
    rw [delete_candidates_eraseIdx removeOk (g.keep :: g.dupes) 0 (n - 1) acc fs
      (Nat.zero_le _)]
    rw [Nat.sub_zero]
  · intro hprompt
    simp only [delete_files_interactively_go, hprompt]

/-- Witness for C3: the cli.rs scenario — a 3-candidate group, the operator
types "3": candidates 1 and 2 are deleted, candidate 3 survives, and the
group's deleted-count is 2. -/
theorem interactive_selection_correct_witness :
    prompt_for_selection 3 [.ok ['3']] = (some 3, [])
    ∧ delete_files_interactively (fun _ => true)
        [(['a'], 1), (['b'], 2), (['c'], 3)] [.ok ['3']]
        [{ keep := ['a'], dupes := [['b'], ['c']] }] =
        ((2, 3), [(['c'], 3)], []) := by
  refine ⟨by decide, ?_⟩
  have h := (interactive_selection_correct 3 ['3'] [.ok ['3']] [] (fun _ => true)
      (0, 0) [(['a'], 1), (['b'], 2), (['c'], 3)]
      { keep := ['a'], dupes := [['b'], ['c']] } [] 3).2.2.2.2.1 (by decide)
  show delete_files_interactively_go (fun _ => true) (0, 0)
      [(['a'], 1), (['b'], 2), (['c'], 3)] [.ok ['3']]
      [{ keep := ['a'], dupes := [['b'], ['c']] }] = ((2, 3), [(['c'], 3)], [])
  rw [h]
  decide

/-- Claim C10: when reading a line from standard input fails during the
selection prompt, the prompt returns the default choice 1, so for the current
group every candidate other than the first (the keep) is targeted for
deletion and the run continues with the next group — no re-prompt, no abort. -/
theorem read_error_keeps_default (max : Nat) (rest : List ReadResult)
    (removeOk : Path → Bool) (acc : Nat × Nat) (fs : FS) (g : DuplicateGroup)
    (gs : List DuplicateGroup) :
    prompt_for_selection max (.err :: rest) = (some 1, rest)
    ∧ delete_files_interactively_go removeOk acc fs (.err :: rest) (g :: gs) =
        (let r := delete_files_go removeOk acc fs g.dupes
         delete_files_interactively_go removeOk r.1 r.2 rest gs) := by
  refine ⟨rfl, ?_⟩
  simp only [delete_files_interactively_go, prompt_for_selection]
  rw [delete_candidates_eraseIdx removeOk (g.keep :: g.dupes) 0 (1 - 1) acc fs
    (Nat.zero_le _)]
  rfl

/-! ## Claim C7 -/

/-- Claim C7, evaluated at the decision points the claim covers.  When the
target path does not exist, `main` prints an error and plain-returns: the
process exit status is 0, not non-zero as the claim requires — though it does
abort before any hashing.  A failed JSON-report write exits 1, and declining
the batch confirmation exits 0 with all files intact, as the claim says. -/
theorem main_exit_codes :
    (main_model batchArgs false false true [] [] (fun _ => true) []).exit_code = 0
    ∧ (main_model batchArgs false false true [] [] (fun _ => true) []).hashed = false
    ∧ (main_model reportArgs true false false [(['h'], [['a'], ['b']])] []
        (fun _ => true) [(['a'], 1), (['b'], 1)]).exit_code = 1
    ∧ (main_model batchArgs true false true [(['h'], [['a'], ['b']])] [.ok ['n']]
        (fun _ => true) [(['a'], 1), (['b'], 1)]).exit_code = 0
    ∧ (main_model batchArgs true false true [(['h'], [['a'], ['b']])] [.ok ['n']]
        (fun _ => true) [(['a'], 1), (['b'], 1)]).fs = [(['a'], 1), (['b'], 1)] := by
  decide

/-! ## Claim C8 -/

/-- Every path existing before a report write still exists after it. -/
theorem mem_paths_write_json_report_of_mem {fs : FS} {out p : Path}
    (hp : p ∈ FS.paths fs) : p ∈ FS.paths (write_json_report fs out) := by
  by_cases hpo : p = out
  · subst hpo; simp [write_json_report, FS.paths]
  · simp only [write_json_report, FS.paths, List.map_append, List.mem_append]
    left
    obtain ⟨e, he, rfl⟩ := List.mem_map.mp hp
    exact List.mem_map_of_mem _ (List.mem_filter.mpr ⟨he, by simp [hpo]⟩)

/-- A report write creates at most the report path. -/
theorem mem_paths_write_json_report {fs : FS} {out p : Path}
    (hp : p ∈ FS.paths (write_json_report fs out)) : p ∈ FS.paths fs ∨ p = out := by
  simp only [write_json_report, FS.paths, List.map_append, List.mem_append] at hp
  rcases hp with hp | hp
  · left
    obtain ⟨e, he, rfl⟩ := List.mem_map.mp hp
    exact List.mem_map_of_mem _ (List.mem_filter.mp he).1
  · right
    simpa using hp

/-- Counterexample to C8 as stated: report-only (JSON-output) mode creates the
report file, so the set of existing paths after the run differs from the set
before the run (here the report path "r" exists only afterwards). -/
theorem report_mode_changes_path_set :
    ¬ (∀ p : Path,
        p ∈ FS.paths (main_model reportArgs true false true
            [(['h'], [['a'], ['b']])] [] (fun _ => true)
            [(['a'], 1), (['b'], 2)]).fs ↔
        p ∈ FS.paths [(['a'], 1), (['b'], 2)]) := by
  intro h
  exact absurd ((h ['r']).mp (by decide)) (by decide)

/-- Claim C8 (amended): dry-run mode (without JSON output) leaves the
filesystem exactly unchanged; JSON-report mode deletes nothing — every path
existing before the run still exists after it — and creates at most the
report file: every path existing after the run either existed before or is the
report path.  (As literally stated the claim fails for report mode, which
creates the report file: see the counterexample.) -/
theorem dry_run_report_no_deletion (args : Args)
    (root_exists files_empty write_ok : Bool) (m : List (Digest × List Path))
    (inputs : List ReadResult) (removeOk : Path → Bool) (fs : FS) :
    (args.json_output = none → args.dry_run = true →
      (main_model args root_exists files_empty write_ok m inputs removeOk fs).fs = fs)
    ∧ (∀ out, args.json_output = some out →
        (∀ p ∈ FS.paths fs, p ∈ FS.paths
          (main_model args root_exists files_empty write_ok m inputs removeOk fs).fs)
        ∧ (∀ p ∈ FS.paths
            (main_model args root_exists files_empty write_ok m inputs removeOk fs).fs,
          p ∈ FS.paths fs ∨ p = out)) := by
  constructor
  · intro hjson hdry
    cases root_exists with
    | false => simp [main_model]
    | true =>
      cases files_empty with
      | true => simp [main_model]
      | false =>
        simp only [main_model, hjson, hdry, eq_self_iff_true, if_true,
          Bool.true_eq_false, Bool.false_eq_true, if_false]
        split
        · rfl
        · split <;> rfl
  · intro out hjson
    cases root_exists with
    | false =>
      exact ⟨fun p hp => by simpa [main_model] using hp,
             fun p hp => Or.inl (by simpa [main_model] using hp)⟩
    | true =>
      cases files_empty with
      | true =>
        exact ⟨fun p hp => by simpa [main_model] using hp,
               fun p hp => Or.inl (by simpa [main_model] using hp)⟩
      | false =>
        cases write_ok with
        | false =>
          refine ⟨fun p hp => ?_, fun p hp => Or.inl ?_⟩
          · simpa [main_model, hjson] using hp
          · simpa [main_model, hjson] using hp
        | true =>
          have hfs : (main_model args true false true m inputs removeOk fs).fs =
              write_json_report fs out := by
            simp [main_model, hjson]
          rw [hfs]
          exact ⟨fun p hp => mem_paths_write_json_report_of_mem hp,
                 fun p hp => mem_paths_write_json_report hp⟩

/-- Witness for C8: a concrete dry run leaves the concrete filesystem
untouched. -/
theorem dry_run_report_no_deletion_witness :
    dryRunArgs.json_output = none
    ∧ (main_model dryRunArgs true false true [(['h'], [['a'], ['b']])] []
        (fun _ => true) [(['a'], 1), (['b'], 2)]).fs = [(['a'], 1), (['b'], 2)] :=
  ⟨rfl,
   (dry_run_report_no_deletion dryRunArgs true false true
      [(['h'], [['a'], ['b']])] [] (fun _ => true)
      [(['a'], 1), (['b'], 2)]).1 rfl rfl⟩

end Ddupe
